import Mathlib

/-!
Verification of the record-reconciliation logic of the company aggregator
(`api/scrape_byDomain.js` and its near-identical endpoint variants).

The JavaScript source is shallowly embedded: every JS helper that the claims
touch is translated into an executable Lean definition operating on
`String`/`List Char`, with JS truthiness (`null`/`undefined`/`""` are falsy)
made explicit through `Option String` plus the `jsTruthy`/`jsOr` helpers.
Regular-expression matching is embedded by a small backtracking matcher
(`matchAtoms`) whose atoms cover exactly the constructs used in the source
(greedy bounded repetition of a character class), with leftmost-match search
(`findMatch`) mirroring `String.prototype.match`.
-/

namespace VercelScrape

/- ------------------------------------------------------------------ -/
/- JS truthiness helpers.  `Option String` stands for a JS string that
   may be `null`/`undefined` (`none`).  The empty string is falsy. -/

/-- Truthiness of a JS string value: `null`, `undefined` and `""` are falsy. -/
def jsTruthy : Option String → Bool
  | none => false
  | some s => !(s == "")

/-- JS `a || b` on string values. -/
def jsOr (a b : Option String) : Option String :=
  if jsTruthy a then a else b

theorem jsTruthy_none : jsTruthy none = false := rfl

theorem jsOr_of_truthy {a : Option String} (h : jsTruthy a = true) (b : Option String) :
    jsOr a b = a := by
  unfold jsOr
  rw [h]
  rfl

theorem jsOr_of_falsy {a : Option String} (h : jsTruthy a = false) (b : Option String) :
    jsOr a b = b := by
  unfold jsOr
  rw [h]
  rfl

/- ------------------------------------------------------------------ -/
/- Character classes used by the regexes in the source. -/

/-- JS `\s` restricted to the ASCII whitespace characters (the source data
    never contains the exotic Unicode space characters that JS also accepts). -/
def isJsSpace (c : Char) : Bool :=
  c == ' ' || c == '\t' || c == '\n' || c == '\r' || c == '\x0b' || c == '\x0c'

/-- Digits `0`-`9` as matched by JS `\d`. -/
def isJsDigit (c : Char) : Bool := c.isDigit

/-- Letters as matched by `[A-Za-z]`. -/
def isJsAlpha (c : Char) : Bool :=
  ('A' ≤ c && c ≤ 'Z') || ('a' ≤ c && c ≤ 'z')

/-- `Number` applied to a nonempty digit string (exact; the JS double
    precision loss above 2^53 is not modelled since no claim involves such
    magnitudes). -/
def natOfDigits (l : List Char) : Nat :=
  l.foldl (fun n c => n * 10 + (c.toNat - '0'.toNat)) 0

/- ------------------------------------------------------------------ -/
/- Temporal statement selector: `latestByP585` in `extractFromWikidata`
   (api/scrape_byDomain.js lines 104-112). -/

/-- A Wikidata statement as consumed by the selector and the employee
    extraction: `value` models `mainsnak.datavalue.value` (outer `Option` =
    presence of the value object, inner = presence of its `amount` string) and
    `time` models `qualifiers.P585[0].datavalue.value.time`. -/
structure WdStatement where
  value : Option (Option String)
  time : Option String
deriving DecidableEq, Repr

/-- The sort key of a statement:
    `t ? Number(t.replace(/[^\d]/g, "").slice(0,8)) : 0`.
    A missing qualifier gives key 0; `Number("") = 0` covers a digitless
    qualifier, so the `jsTruthy` test and the digit extraction agree. -/
def stKey (st : WdStatement) : Nat :=
  match st.time with
  | none => 0
  | some t => natOfDigits ((t.data.filter isJsDigit).take 8)

/-- Insert into a descending-sorted list, keeping the inserted element before
    elements of equal key.  Folding `insertDesc` over the input from the right
    is extensionally the unique stable descending sort, which is what
    `Array.prototype.sort` with comparator `(a,b) => b.key - a.key` computes
    (JS sort is stable per ES2019). -/
def insertDesc (key : α → Nat) (x : α) : List α → List α
  | [] => [x]
  | y :: ys => if key y ≤ key x then x :: y :: ys else y :: insertDesc key x ys

/-- Stable descending sort by `key` (see `insertDesc`). -/
def sortDesc (key : α → Nat) (l : List α) : List α :=
  l.foldr (insertDesc key) []

/-- `latestByP585` (api/scrape_byDomain.js lines 104-112): map each statement
    to its `P585` sort key, stable-sort descending, return the first statement;
    `null` on a missing or empty array. -/
def latestByP585 (arr : List WdStatement) : Option WdStatement :=
  match arr with
  | [] => none
  | _ => (sortDesc stKey arr).head?

/- ------------------------------------------------------------------ -/
/- Facts about the selector used by the claims. -/

theorem insertDesc_ne_nil (key : α → Nat) (x : α) (l : List α) :
    insertDesc key x l ≠ [] := by
  cases l with
  | nil => simp [insertDesc]
  | cons y ys =>
    simp only [insertDesc]
    split <;> simp

theorem sortDesc_head_spec (key : α → Nat) :
    ∀ (l : List α) (x : α), (sortDesc key l).head? = some x →
      x ∈ l ∧ (∀ y ∈ l, key y ≤ key x) ∧
      ∃ l₁ l₂, l = l₁ ++ x :: l₂ ∧ ∀ y ∈ l₁, key y < key x := by
  intro l
  induction l with
  | nil => intro x hx; simp [sortDesc] at hx
  | cons a as ih =>
    intro x hx
    have hs : sortDesc key (a :: as) = insertDesc key a (sortDesc key as) := rfl
    cases hsa : sortDesc key as with
    | nil =>
      -- `as` sorts to `[]` only when `as = []`
      have hasnil : as = [] := by
        cases as with
        | nil => rfl
        | cons b bs =>
          exact absurd hsa (insertDesc_ne_nil key b (sortDesc key bs))
      subst hasnil
      simp [sortDesc, insertDesc] at hx
      subst hx
      exact ⟨by simp, by simp, [], [], by simp, by simp⟩
    | cons h t =>
      have hh : (sortDesc key as).head? = some h := by simp [hsa]
      obtain ⟨hmem, hmax, l₁, l₂, hdec, hlt⟩ := ih h hh
      rw [hs, hsa] at hx
      simp only [insertDesc] at hx
      by_cases hcmp : key h ≤ key a
      · simp only [if_pos hcmp, List.head?_cons, Option.some.injEq] at hx
        subst hx
        refine ⟨by simp, ?_, [], as, by simp, by simp⟩
        intro y hy
        rcases List.mem_cons.mp hy with h1 | h2
        · subst h1; exact le_refl _
        · exact le_trans (hmax y h2) hcmp
      · simp only [if_neg hcmp, List.head?_cons, Option.some.injEq] at hx
        subst hx
        push_neg at hcmp
        refine ⟨List.mem_cons_of_mem a hmem, ?_, a :: l₁, l₂, by simp [hdec], ?_⟩
        · intro y hy
          rcases List.mem_cons.mp hy with h1 | h2
          · subst h1; exact le_of_lt hcmp
          · exact hmax y h2
        · intro y hy
          rcases List.mem_cons.mp hy with h1 | h2
          · subst h1; exact hcmp
          · exact hlt y h2

theorem latestByP585_spec (l : List WdStatement) (x : WdStatement)
    (hx : latestByP585 l = some x) :
    x ∈ l ∧ (∀ y ∈ l, stKey y ≤ stKey x) ∧
      ∃ l₁ l₂, l = l₁ ++ x :: l₂ ∧ ∀ y ∈ l₁, stKey y < stKey x := by
  cases l with
  | nil => simp [latestByP585] at hx
  | cons a as => exact sortDesc_head_spec stKey (a :: as) x hx

theorem latestByP585_isSome (l : List WdStatement) (hl : l ≠ []) :
    ∃ x, latestByP585 l = some x := by
  cases l with
  | nil => exact absurd rfl hl
  | cons a as =>
    have h := insertDesc_ne_nil stKey a (sortDesc stKey as)
    cases hcase : insertDesc stKey a (sortDesc stKey as) with
    | nil => exact absurd hcase h
    | cons b bs =>
      refine ⟨b, ?_⟩
      show (sortDesc stKey (a :: as)).head? = some b
      have : sortDesc stKey (a :: as) = insertDesc stKey a (sortDesc stKey as) := rfl
      rw [this, hcase]
      rfl

/-- Key-distinctness makes the maximal statement unique. -/
theorem stKey_inj_of_nodup {l : List WdStatement}
    (h : (l.map stKey).Nodup) {a b : WdStatement}
    (ha : a ∈ l) (hb : b ∈ l) (hk : stKey a = stKey b) : a = b :=
  List.inj_on_of_nodup_map h ha hb hk

/-- Example statements for the concrete checks: amounts distinguish the
    statements, `time` carries the point-in-time qualifier. -/
def stmt2023 : WdStatement := ⟨some (some "+1000"), some "+2023-01-01T00:00:00Z"⟩

def stmt2024 : WdStatement := ⟨some (some "+2000"), some "+2024-06-30T00:00:00Z"⟩

def stmtNoQual : WdStatement := ⟨some (some "+3000"), none⟩

def stmtNoQualB : WdStatement := ⟨some (some "+4000"), none⟩

/-- C5: the selector is permutation-invariant on lists with pairwise-distinct
    keys; when keys tie exactly, the first-encountered statement wins (every
    statement placed before the selected one has a strictly smaller key, so an
    equal-key statement can only sit after it); empty input yields `null`; and
    on the example list (qualifiers 2023-01-01, 2024-06-30, none) the
    2024-06-30 statement is selected. -/
theorem latestByP585_c5_properties :
    (∀ l l' : List WdStatement, l.Perm l' → (l.map stKey).Nodup →
        latestByP585 l = latestByP585 l') ∧
    (∀ (l : List WdStatement) (x : WdStatement), latestByP585 l = some x →
        ∃ l₁ l₂, l = l₁ ++ x :: l₂ ∧ ∀ y ∈ l₁, stKey y < stKey x) ∧
    latestByP585 [] = none ∧
    latestByP585 [stmt2023, stmt2024, stmtNoQual] = some stmt2024 := by
  refine ⟨?_, ?_, rfl, by decide⟩
  · intro l l' hperm hnodup
    cases l with
    | nil =>
      have : l' = [] := hperm.nil_eq.symm
      rw [this]
    | cons a as =>
      have hl : (a :: as : List WdStatement) ≠ [] := by simp
      have hl' : l' ≠ [] := by
        intro h
        rw [h] at hperm
        exact hl hperm.eq_nil
      obtain ⟨x, hx⟩ := latestByP585_isSome _ hl
      obtain ⟨x', hx'⟩ := latestByP585_isSome _ hl'
      obtain ⟨hxm, hxmax, -⟩ := latestByP585_spec _ _ hx
      obtain ⟨hx'm, hx'max, -⟩ := latestByP585_spec _ _ hx'
      have hx'in : x' ∈ a :: as := hperm.symm.subset hx'm
      have hxin' : x ∈ l' := hperm.subset hxm
      have hkey : stKey x = stKey x' :=
        le_antisymm (hx'max x hxin') (hxmax x' hx'in)
      have : x = x' := stKey_inj_of_nodup hnodup hxm hx'in hkey
      rw [hx, hx', this]
  · intro l x hx
    exact (latestByP585_spec l x hx).2.2

/-- C3 fails as stated: a statement lacking a qualifier can be selected from a
    list of several candidates (here two unqualified statements: the first is
    chosen although it is not the sole candidate). -/
theorem latestByP585_c3_counterexample :
    latestByP585 [stmtNoQual, stmtNoQualB] = some stmtNoQual ∧
    stmtNoQual.time = none ∧
    ([stmtNoQual, stmtNoQualB] : List WdStatement).length ≠ 1 := by
  decide

/-- C3 amended: a statement without a point-in-time qualifier receives sort
    key 0, and such a statement is selected only when every candidate in the
    list has key 0 (no candidate carries a qualifier with a nonzero
    eight-digit key) and it is the first candidate in input order — not only
    when it is the sole candidate. -/
theorem latestByP585_c3_amended :
    (∀ s : WdStatement, s.time = none → stKey s = 0) ∧
    (∀ (l : List WdStatement) (x : WdStatement), latestByP585 l = some x →
        stKey x = 0 → (∀ y ∈ l, stKey y = 0) ∧ l.head? = some x) := by
  constructor
  · intro s hs
    simp [stKey, hs]
  · intro l x hx hkey
    obtain ⟨hmem, hmax, l₁, l₂, hdec, hlt⟩ := latestByP585_spec l x hx
    have hall : ∀ y ∈ l, stKey y = 0 := by
      intro y hy
      have := hmax y hy
      omega
    refine ⟨hall, ?_⟩
    have hnil : l₁ = [] := by
      cases hcase : l₁ with
      | nil => rfl
      | cons b bs =>
        have hb : b ∈ l₁ := by simp [hcase]
        have := hlt b hb
        rw [hkey] at this
        exact absurd this (Nat.not_lt_zero _)
    rw [hdec, hnil]
    rfl

/-- Witness for `latestByP585_c3_amended` at a concrete singleton list. -/
theorem latestByP585_c3_amended_witness :
    (∀ y ∈ [stmtNoQual], stKey y = 0) ∧
      ([stmtNoQual] : List WdStatement).head? = some stmtNoQual :=
  latestByP585_c3_amended.2 [stmtNoQual] stmtNoQual (by decide) (by decide)

/-- Witness for `latestByP585_c5_properties`: permutation invariance applied
    to a concrete two-element list with distinct keys. -/
theorem latestByP585_c5_properties_witness :
    latestByP585 [stmt2023, stmt2024] = latestByP585 [stmt2024, stmt2023] :=
  latestByP585_c5_properties.1 [stmt2023, stmt2024] [stmt2024, stmt2023]
    (List.Perm.swap stmt2024 stmt2023 []) (by decide)

/- ------------------------------------------------------------------ -/
/- `unique` (api/scrape_byDomain.js line 18) and the industry/specialties
   merge (lines 552-567). -/

/-- `String.prototype.trim` restricted to the ASCII whitespace set. -/
def trimChars (l : List Char) : List Char :=
  ((l.dropWhile isJsSpace).reverse.dropWhile isJsSpace).reverse

/-- JS `String(x).trim()`. -/
def jsTrim (s : String) : String := ⟨trimChars s.data⟩

/-- One step of `new Set` insertion: keep the first occurrence. -/
def insertUnique (acc : List String) (x : String) : List String :=
  if x ∈ acc then acc else acc ++ [x]

/-- `unique` (line 18): `Array.from(new Set(arr.filter(Boolean).map(x =>
    String(x).trim()).filter(Boolean)))` — drop falsy entries, trim, drop
    entries that trimmed to empty, then de-duplicate keeping first occurrences
    in insertion order (JS `Set` iterates in insertion order). -/
def jsUnique (arr : List String) : List String :=
  (((arr.filter (fun s => !(s == ""))).map jsTrim).filter
      (fun s => !(s == ""))).foldl insertUnique []

/-- Merged `industry` (line 556): `unique([...wiki.industry, ...enriched.industry])`,
    free-text items first. -/
def mergeIndustry (freeText structured : List String) : List String :=
  jsUnique (freeText ++ structured)

/-- Merged `specialties` (line 566): `unique(wiki.specialties || [])`; the
    structured source supplies no specialties. -/
def mergeSpecialties (freeText : List String) : List String :=
  jsUnique freeText

theorem foldl_insertUnique (l : List String) :
    ∀ acc, l.foldl insertUnique acc =
      acc ++ (l.foldl insertUnique []).filter (fun y => decide (y ∉ acc)) := by
  induction l with
  | nil => intro acc; simp
  | cons x xs ih =>
    intro acc
    have hx0 : insertUnique [] x = [x] := by simp [insertUnique]
    by_cases hmem : x ∈ acc
    · have h1 : insertUnique acc x = acc := by simp [insertUnique, hmem]
      calc (x :: xs).foldl insertUnique acc
          = xs.foldl insertUnique acc := by rw [List.foldl_cons, h1]
        _ = acc ++ (xs.foldl insertUnique []).filter (fun y => decide (y ∉ acc)) := ih acc
        _ = acc ++ ((x :: xs).foldl insertUnique []).filter (fun y => decide (y ∉ acc)) := by
            rw [List.foldl_cons, hx0, ih [x]]
            congr 1
            rw [List.filter_append, List.filter_filter]
            have hxf : ([x] : List String).filter (fun y => decide (y ∉ acc)) = [] := by
              simp [hmem]
            rw [hxf, List.nil_append]
            apply List.filter_congr
            intro y _
            by_cases hy : y ∈ acc
            · simp [hy]
            · have hne : y ≠ x := fun h => hy (h ▸ hmem)
              simp [hy, hne]
    · have h1 : insertUnique acc x = acc ++ [x] := by simp [insertUnique, hmem]
      calc (x :: xs).foldl insertUnique acc
          = xs.foldl insertUnique (acc ++ [x]) := by rw [List.foldl_cons, h1]
        _ = (acc ++ [x]) ++ (xs.foldl insertUnique []).filter
              (fun y => decide (y ∉ acc ++ [x])) := ih (acc ++ [x])
        _ = acc ++ ((x :: xs).foldl insertUnique []).filter (fun y => decide (y ∉ acc)) := by
            rw [List.foldl_cons, hx0, ih [x]]
            rw [List.filter_append, List.filter_filter]
            have hxf : ([x] : List String).filter (fun y => decide (y ∉ acc)) = [x] := by
              simp [hmem]
            rw [hxf, List.append_assoc]
            congr 2
            apply List.filter_congr
            intro y _
            by_cases hy : y ∈ acc
            · simp [hy]
            · by_cases hyx : y = x <;> simp [hy, hyx]

/-- C6: the merged industry list is the free-text list (trimmed,
    de-duplicated, in original order) followed by the structured items not
    already present; specialties are the de-duplicated free-text list (the
    structured source contributes none); and the example
    `["Tech"] ∪ ["Tech","AI"] = ["Tech","AI"]` holds. -/
theorem mergeIndustry_c6_union :
    (∀ freeText structured : List String,
        mergeIndustry freeText structured =
          jsUnique freeText ++
            (jsUnique structured).filter (fun y => decide (y ∉ jsUnique freeText))) ∧
    (∀ freeText : List String, mergeSpecialties freeText = jsUnique freeText) ∧
    mergeIndustry ["Tech"] ["Tech", "AI"] = ["Tech", "AI"] := by
  refine ⟨?_, fun _ => rfl, by decide⟩
  intro ft st
  show jsUnique (ft ++ st) = _
  unfold jsUnique
  rw [List.filter_append, List.map_append, List.filter_append, List.foldl_append]
  exact foldl_insertUnique _ _

/- ------------------------------------------------------------------ -/
/- Primary-ticker selector: `choosePrimaryTicker` (api/scrape_byDomain.js
   lines 518-526) over `EXCHANGE_PREFERENCE` (line 20). -/

/-- JS `String.prototype.includes`: `containsSub needle hay` is true when
    `needle` occurs as a contiguous substring of `hay`. -/
def containsSub (needle : List Char) : List Char → Bool
  | [] => needle.isEmpty
  | c :: t => needle.isPrefixOf (c :: t) || containsSub needle t

/-- A ticker candidate: `{ symbol, exchange }` with the exchange label
    possibly `null`. -/
structure Ticker where
  symbol : String
  exchange : Option String
deriving DecidableEq, Repr

/-- The fixed exchange ranking of api/scrape_byDomain.js line 20. -/
def EXCHANGE_PREFERENCE : List String :=
  ["NASDAQ", "NYSE", "NYSE ARCA", "NYSE AMERICAN", "LSE", "TSE", "HKEX"]

/-- The loop test `(t.exchange || "").toUpperCase().includes(pref)`. -/
def tickerMatches (t : Ticker) (pref : String) : Bool :=
  containsSub pref.data ((t.exchange.getD "").data.map Char.toUpper)

/-- The preference loop: for each ranked exchange in order, return the symbol
    of the first candidate (input order, `Array.prototype.find`) that matches. -/
def findPrefSymbol : List String → List Ticker → Option String
  | [], _ => none
  | p :: ps, arr =>
    match arr.find? (fun t => tickerMatches t p) with
    | some t => some t.symbol
    | none => findPrefSymbol ps arr

/-- `choosePrimaryTicker` (lines 518-526): empty input gives `null`; otherwise
    the preference loop, falling back to the first candidate. -/
def choosePrimaryTicker (arr : List Ticker) : Option String :=
  match arr with
  | [] => none
  | a :: _ =>
    match findPrefSymbol EXCHANGE_PREFERENCE arr with
    | some s => some s
    | none => some a.symbol

/-- The spec-side matcher: the exchange label contains the ranked exchange
    name case-insensitively (both sides uppercased). -/
def ciMatches (t : Ticker) (pref : String) : Bool :=
  containsSub (pref.data.map Char.toUpper) ((t.exchange.getD "").data.map Char.toUpper)

/-- The selection rule as the spec words it (same ranking, case-insensitive
    containment). -/
def findPrefSymbolSpec : List String → List Ticker → Option String
  | [], _ => none
  | p :: ps, arr =>
    match arr.find? (fun t => ciMatches t p) with
    | some t => some t.symbol
    | none => findPrefSymbolSpec ps arr

/-- The whole selector as the spec words it. -/
def chooseTickerSpec (arr : List Ticker) : Option String :=
  match arr with
  | [] => none
  | a :: _ =>
    match findPrefSymbolSpec EXCHANGE_PREFERENCE arr with
    | some s => some s
    | none => some a.symbol

theorem find?_congr_pred {α : Type} {p q : α → Bool} (h : ∀ a, p a = q a) :
    ∀ l : List α, l.find? p = l.find? q := by
  intro l
  induction l with
  | nil => rfl
  | cons a t ih =>
    rw [List.find?_cons, List.find?_cons, h a, ih]

theorem findPrefSymbol_eq_spec :
    ∀ ps : List String, (∀ p ∈ ps, p.data.map Char.toUpper = p.data) →
      ∀ arr, findPrefSymbol ps arr = findPrefSymbolSpec ps arr := by
  intro ps
  induction ps with
  | nil => intro _ _; rfl
  | cons p pt ih =>
    intro hup arr
    have hp : p.data.map Char.toUpper = p.data := hup p (List.mem_cons_self p pt)
    have hmatch : ∀ t, tickerMatches t p = ciMatches t p := by
      intro t
      unfold tickerMatches ciMatches
      rw [hp]
    have hrest := ih (fun q hq => hup q (List.mem_cons_of_mem p hq)) arr
    have hrhs : findPrefSymbolSpec (p :: pt) arr =
        (match arr.find? (fun t => ciMatches t p) with
         | some t => some t.symbol
         | none => findPrefSymbolSpec pt arr) := rfl
    rw [hrhs]
    show (match arr.find? (fun t => tickerMatches t p) with
          | some t => some t.symbol
          | none => findPrefSymbol pt arr) = _
    rw [find?_congr_pred hmatch arr, hrest]

/-- C7: the primary-ticker selector implements exactly the spec rule (iterate
    the fixed ranking, first candidate in input order whose exchange label
    contains the ranked name case-insensitively; else first candidate), empty
    input yields `null`, and the two-NASDAQ-candidate example returns
    `"GOOG"`. The code uppercases only the label, but every entry of
    `EXCHANGE_PREFERENCE` in this file is already uppercase, so this equals
    case-insensitive containment. -/
theorem choosePrimaryTicker_c7 :
    (∀ arr, choosePrimaryTicker arr = chooseTickerSpec arr) ∧
    choosePrimaryTicker [] = none ∧
    choosePrimaryTicker
      [⟨"GOOG", some "NASDAQ"⟩, ⟨"GOOGL", some "NASDAQ"⟩] = some "GOOG" := by
  refine ⟨?_, rfl, by decide⟩
  intro arr
  have hup : ∀ p ∈ EXCHANGE_PREFERENCE, p.data.map Char.toUpper = p.data := by decide
  cases arr with
  | nil => rfl
  | cons a t =>
    show (match findPrefSymbol EXCHANGE_PREFERENCE (a :: t) with
          | some s => some s
          | none => some a.symbol) = _
    rw [findPrefSymbol_eq_spec EXCHANGE_PREFERENCE hup (a :: t)]
    rfl

/- ------------------------------------------------------------------ -/
/- Social link classifier: `SOCIAL_DOMAINS` and `classifySocial`
   (api/scrape_byDomain.js lines 312-336). -/

/-- Split a character list at the first occurrence of `sep`, returning the
    parts before and after it. -/
def splitOnSub (sep : List Char) : List Char → Option (List Char × List Char)
  | [] => if sep.isEmpty then some ([], []) else none
  | c :: t =>
    if sep.isPrefixOf (c :: t) then some ([], (c :: t).drop sep.length)
    else
      match splitOnSub sep t with
      | some (a, b) => some (c :: a, b)
      | none => none

/-- Characters allowed in a URL scheme after its leading letter. -/
def isSchemeChar (c : Char) : Bool :=
  isJsAlpha c || c.isDigit || c == '+' || c == '-' || c == '.'

/-- Modelled from the JS runtime: `new URL(url).hostname` for the URL shapes
    the classifier can meet.  A parse succeeds on `scheme://authority...`
    (nonempty scheme starting with a letter, nonempty host after stripping
    userinfo and port); anything else — relative paths, free text, schemes
    without `://` — yields `none`, exactly the inputs on which `new URL`
    throws or produces an empty hostname (either way `classifySocial`
    returns `null`). -/
def urlHostname (s : String) : Option String :=
  match splitOnSub "://".data s.data with
  | none => none
  | some (scheme, rest) =>
    match scheme with
    | [] => none
    | c :: t =>
      if isJsAlpha c && (c :: t).all isSchemeChar then
        let authority := rest.takeWhile (fun ch => !(ch == '/') && !(ch == '?') && !(ch == '#'))
        let hostPort := (authority.reverse.takeWhile (fun ch => !(ch == '@'))).reverse
        let host := hostPort.takeWhile (fun ch => !(ch == ':'))
        match host with
        | [] => none
        | _ => some ⟨host⟩
      else none

/-- JS `String.prototype.toLowerCase` (ASCII). -/
def lowerStr (s : String) : String := ⟨s.data.map Char.toLower⟩

/-- `SOCIAL_DOMAINS` (lines 312-326), in object-literal insertion order,
    which is the iteration order of `Object.entries`. -/
def SOCIAL_DOMAINS : List (String × List String) :=
  [("x", ["x.com", "twitter.com"]),
   ("facebook", ["facebook.com"]),
   ("instagram", ["instagram.com"]),
   ("youtube", ["youtube.com", "youtu.be"]),
   ("linkedin", ["linkedin.com"]),
   ("tiktok", ["tiktok.com"]),
   ("github", ["github.com"]),
   ("medium", ["medium.com"]),
   ("reddit", ["reddit.com"]),
   ("threads", ["threads.net"]),
   ("bluesky", ["bsky.app"]),
   ("mastodon", ["mastodon.social", "fosstodon.org", "hachyderm.io"]),
   ("pinterest", ["pinterest.com"])]

/-- The per-domain test `host === d || host.endsWith("." + d)`. -/
def hostMatchesDomain (host d : String) : Bool :=
  host == d || ("." ++ d).data.isSuffixOf host.data

/-- `classifySocial` (lines 327-336): parse the hostname (the `try`/`catch`
    around `new URL` is the `none` branch), lowercase it, return the first
    platform key whose domain list matches. -/
def classifySocial (url : String) : Option String :=
  match urlHostname url with
  | none => none
  | some h =>
    match SOCIAL_DOMAINS.find? (fun kd => kd.2.any (hostMatchesDomain (lowerStr h))) with
    | some kd => some kd.1
    | none => none

/-- C8: a URL classifies to a key only via a configured root domain that its
    lowercased hostname equals or is a dot-separated sub-domain of; a parsed
    URL classifies to some key exactly when such a domain exists; and on the
    examples, `https://www.X.com/Acme` and `https://x.com/Acme` both classify
    as `"x"` while `https://NotX.com/Acme` (whose host merely ends in the
    substring `x.com`) classifies as `null`. -/
theorem classifySocial_c8 :
    (∀ url k, classifySocial url = some k →
        ∃ h, urlHostname url = some h ∧
          ∃ p ∈ SOCIAL_DOMAINS, p.1 = k ∧
            ∃ d ∈ p.2, lowerStr h = d ∨
              ("." ++ d).data.isSuffixOf (lowerStr h).data = true) ∧
    (∀ url h, urlHostname url = some h →
        ((classifySocial url).isSome ↔
          ∃ p ∈ SOCIAL_DOMAINS, ∃ d ∈ p.2, lowerStr h = d ∨
            ("." ++ d).data.isSuffixOf (lowerStr h).data = true)) ∧
    classifySocial "https://www.X.com/Acme" = some "x" ∧
    classifySocial "https://x.com/Acme" = some "x" ∧
    classifySocial "https://NotX.com/Acme" = none := by
  have hred : ∀ url h, urlHostname url = some h →
      classifySocial url =
        (match SOCIAL_DOMAINS.find?
            (fun kd => kd.2.any (hostMatchesDomain (lowerStr h))) with
         | some kd => some kd.1
         | none => none) := by
    intro url h hu
    unfold classifySocial
    rw [hu]
  have hmatch_iff : ∀ host d : String, hostMatchesDomain host d = true ↔
      (host = d ∨ ("." ++ d).data.isSuffixOf host.data = true) := by
    intro host d
    unfold hostMatchesDomain
    rw [Bool.or_eq_true, beq_iff_eq]
  refine ⟨?_, ?_, by decide, by decide, by decide⟩
  · intro url k hk
    cases hu : urlHostname url with
    | none =>
      unfold classifySocial at hk
      rw [hu] at hk
      exact absurd hk (by simp)
    | some h =>
      rw [hred url h hu] at hk
      cases hf : SOCIAL_DOMAINS.find?
          (fun kd => kd.2.any (hostMatchesDomain (lowerStr h))) with
      | none => rw [hf] at hk; exact absurd hk (by simp)
      | some kd =>
        rw [hf] at hk
        have hkd : kd.1 = k := by simpa using hk
        have hmem := List.mem_of_find?_eq_some hf
        have hpred := List.find?_some (p := fun (kd : String × List String) => kd.2.any (hostMatchesDomain (lowerStr h))) hf
        obtain ⟨d, hd, hm⟩ := List.any_eq_true.mp hpred
        exact ⟨h, rfl, kd, hmem, hkd, d, hd, (hmatch_iff _ _).mp hm⟩
  · intro url h hu
    rw [hred url h hu]
    constructor
    · intro hsome
      cases hf : SOCIAL_DOMAINS.find?
          (fun kd => kd.2.any (hostMatchesDomain (lowerStr h))) with
      | none => rw [hf] at hsome; simp at hsome
      | some kd =>
        have hmem := List.mem_of_find?_eq_some hf
        have hpred := List.find?_some (p := fun (kd : String × List String) => kd.2.any (hostMatchesDomain (lowerStr h))) hf
        obtain ⟨d, hd, hm⟩ := List.any_eq_true.mp hpred
        exact ⟨kd, hmem, d, hd, (hmatch_iff _ _).mp hm⟩
    · rintro ⟨p, hp, d, hd, hm⟩
      have hpred : p.2.any (hostMatchesDomain (lowerStr h)) = true :=
        List.any_eq_true.mpr ⟨d, hd, (hmatch_iff _ _).mpr hm⟩
      have hex : ∃ q, q ∈ SOCIAL_DOMAINS ∧
          (fun kd => kd.2.any (hostMatchesDomain (lowerStr h))) q = true :=
        ⟨p, hp, hpred⟩
      have hsome := List.find?_isSome.mpr hex
      cases hf : SOCIAL_DOMAINS.find?
          (fun kd => kd.2.any (hostMatchesDomain (lowerStr h))) with
      | none => rw [hf] at hsome; simp at hsome
      | some kd => simp

/-- Witness for `classifySocial_c8`: the first conjunct applied at the
    concrete URL `https://x.com/Acme`. -/
theorem classifySocial_c8_witness :
    ∃ h, urlHostname "https://x.com/Acme" = some h ∧
      ∃ p ∈ SOCIAL_DOMAINS, p.1 = "x" ∧
        ∃ d ∈ p.2, lowerStr h = d ∨
          ("." ++ d).data.isSuffixOf (lowerStr h).data = true :=
  classifySocial_c8.1 "https://x.com/Acme" "x" (by decide)

/-- C10: classification never throws — an input with no parsable hostname
    (the modelled `new URL` failure, covering relative paths and malformed
    text) yields `null`, and the classifier is a total Lean function over all
    strings. -/
theorem classifySocial_c10_total :
    (∀ s, urlHostname s = none → classifySocial s = none) ∧
    classifySocial "/relative/path" = none ∧
    classifySocial "not a url" = none ∧
    classifySocial "" = none := by
  refine ⟨?_, by decide, by decide, rfl⟩
  intro s hs
  unfold classifySocial
  rw [hs]

/-- Witness for `classifySocial_c10_total` at the empty string. -/
theorem classifySocial_c10_total_witness : classifySocial "" = none :=
  classifySocial_c10_total.1 "" (by decide)

/- ------------------------------------------------------------------ -/
/- A small backtracking regex engine.  Every regex in
   `parseEmployeesString` is a concatenation of greedy bounded repetitions
   of a character class, which is exactly what `RegexAtom` expresses. -/

/-- One regex atom: `cls{lo,hi}` greedy (`hi = none` meaning unbounded). -/
structure RegexAtom where
  cls : Char → Bool
  lo : Nat
  hi : Option Nat

/-- Length of the maximal prefix satisfying `p`. -/
def runLen (p : Char → Bool) (s : List Char) : Nat := (s.takeWhile p).length

/-- Greedy backtracking over the repetition count of one atom: try `k`
    characters first, retreating one at a time down to `lo`, continuing with
    the rest of the pattern (`next`). -/
def tryCounts (next : List Char → Option Nat) (lo : Nat) : Nat → List Char → Option Nat
  | 0, s =>
    if 0 < lo then none
    else (next (s.drop 0)).elim none (fun n => some (0 + n))
  | Nat.succ k, s =>
    if Nat.succ k < lo then none
    else (next (s.drop (Nat.succ k))).elim (tryCounts next lo k s)
      (fun n => some (Nat.succ k + n))

/-- Match a pattern against a prefix of `s`, returning the number of
    characters consumed (anchored at the start of `s`). -/
def matchAtoms : List RegexAtom → List Char → Option Nat
  | [] => fun _ => some 0
  | a :: rest => fun s =>
    let kmax :=
      match a.hi with
      | none => runLen a.cls s
      | some h => min (runLen a.cls s) h
    tryCounts (matchAtoms rest) a.lo kmax s

/-- Leftmost match, as `String.prototype.match` performs it: try each start
    position from the left, returning the matched substring. -/
def findMatch (pat : List RegexAtom) : List Char → Option (List Char)
  | [] =>
    match matchAtoms pat [] with
    | some _ => some []
    | none => none
  | c :: t =>
    match matchAtoms pat (c :: t) with
    | some n => some ((c :: t).take n)
    | none => findMatch pat t

/- The concrete patterns of `parseEmployeesString`
   (api/scrape_byDomain.js lines 232-267). -/

/-- `/\d{3,}/` — the count pattern. -/
def reDigits3 : List RegexAtom := [⟨isJsDigit, 3, none⟩]

/-- `/(\d{4}-\d{2}-\d{2})/`. -/
def reIso : List RegexAtom :=
  [⟨isJsDigit, 4, some 4⟩, ⟨(· == '-'), 1, some 1⟩,
   ⟨isJsDigit, 2, some 2⟩, ⟨(· == '-'), 1, some 1⟩, ⟨isJsDigit, 2, some 2⟩]

/-- `/(\d{1,2}\s+[A-Za-z]{3,}\s+\d{4})/`. -/
def reDmy : List RegexAtom :=
  [⟨isJsDigit, 1, some 2⟩, ⟨isJsSpace, 1, none⟩, ⟨isJsAlpha, 3, none⟩,
   ⟨isJsSpace, 1, none⟩, ⟨isJsDigit, 4, some 4⟩]

/-- `/([A-Za-z]{3,}\s+\d{1,2},?\s+\d{4})/`. -/
def reMdy : List RegexAtom :=
  [⟨isJsAlpha, 3, none⟩, ⟨isJsSpace, 1, none⟩, ⟨isJsDigit, 1, some 2⟩,
   ⟨(· == ','), 0, some 1⟩, ⟨isJsSpace, 1, none⟩, ⟨isJsDigit, 4, some 4⟩]

/-- `/([A-Za-z]{3,}\s+\d{4})/`. -/
def reYm : List RegexAtom :=
  [⟨isJsAlpha, 3, none⟩, ⟨isJsSpace, 1, none⟩, ⟨isJsDigit, 4, some 4⟩]

/-- `/(\d{4})/`. -/
def reYr : List RegexAtom := [⟨isJsDigit, 4, some 4⟩]

/-- `/\(([^)]+)\)/` — the parenthetical chunk; the captured group is the
    matched text without the surrounding parentheses. -/
def reParen : List RegexAtom :=
  [⟨(· == '('), 1, some 1⟩, ⟨(fun c => !(c == ')')), 1, none⟩, ⟨(· == ')'), 1, some 1⟩]

/-- The capture of `raw.match(/\(([^)]+)\)/)`. -/
def parenChunk (s : List Char) : Option (List Char) :=
  (findMatch reParen s).map (fun m => (m.drop 1).dropLast)

/- ------------------------------------------------------------------ -/
/- Modelled from the JS runtime: `new Date(found)` on a UTC-timezone
   runtime (Vercel), restricted to the word/number token shapes the date
   regexes above can produce, following the V8 legacy date parser: a word is
   a month when its first three letters match a month abbreviation (only the
   first three significant characters are compared, so "Junk" reads as
   June); an unrecognized word is skipped while no number has been read yet
   and makes the parse fail afterwards; day and month default to 1; a first
   number too large to be a day (such as a lone four-digit year) is the
   year; two-digit years map into 1950-2049; a syntactically valid day
   (1-31) past the end of its month wraps into the next month via MakeDay. -/

def monthAbbrevs : List String :=
  ["jan", "feb", "mar", "apr", "may", "jun",
   "jul", "aug", "sep", "oct", "nov", "dec"]

def monthFromWord (w : List Char) : Option Nat :=
  let lw := (w.map Char.toLower).take 3
  if lw.length < 3 then none
  else
    match monthAbbrevs.findIdx? (fun nm => nm.data == lw) with
    | some i => some (i + 1)
    | none => none

def isLeapYear (y : Nat) : Bool :=
  (y % 4 == 0 && !(y % 100 == 0)) || y % 400 == 0

def daysInMonth (y m : Nat) : Nat :=
  if m == 2 then (if isLeapYear y then 29 else 28)
  else if m == 4 || m == 6 || m == 9 || m == 11 then 30
  else 31

def validYmd (y m d : Nat) : Bool :=
  1 ≤ m && m ≤ 12 && 1 ≤ d && d ≤ daysInMonth y m

/-- A date token: a digit run (value and digit count) or a letter run. -/
inductive DateTok where
  | num (n : Nat) (len : Nat)
  | word (w : List Char)
deriving DecidableEq, Repr

/-- Tokenize into digit/letter runs, skipping spaces and commas; fuelled to
    stay structurally recursive (fuel `length + 1` always suffices since
    every step consumes at least one character). -/
def tokenizeFuel : Nat → List Char → Option (List DateTok)
  | _, [] => some []
  | 0, _ :: _ => none
  | Nat.succ fuel, c :: t =>
    if isJsSpace c || c == ',' then tokenizeFuel fuel t
    else if isJsDigit c then
      let run := (c :: t).takeWhile isJsDigit
      (tokenizeFuel fuel ((c :: t).drop run.length)).map
        (fun ts => DateTok.num (natOfDigits run) run.length :: ts)
    else if isJsAlpha c then
      let run := (c :: t).takeWhile isJsAlpha
      (tokenizeFuel fuel ((c :: t).drop run.length)).map
        (fun ts => DateTok.word run :: ts)
    else none

def tokenizeDate (l : List Char) : Option (List DateTok) :=
  tokenizeFuel (l.length + 1) l

/-- V8 `IsDay`: a number that can syntactically be a day of month. -/
def isDayNum (n : Nat) : Bool := 1 ≤ n && n ≤ 31

/-- V8 `IsMonth`. -/
def isMonthNum (n : Nat) : Bool := 1 ≤ n && n ≤ 12

/-- The token walk of the V8 legacy parser: collect the named month and the
    numeric components (at most three); an unrecognized word is legal only
    while no number has been read. -/
def v8Scan : List DateTok → Option Nat → List Nat → Option (Option Nat × List Nat)
  | [], nm, comps => some (nm, comps)
  | DateTok.num n _ :: rest, nm, comps =>
    if comps.length == 3 then none else v8Scan rest nm (comps ++ [n])
  | DateTok.word w :: rest, nm, comps =>
    match monthFromWord w with
    | some m => v8Scan rest (some m) comps
    | none => if comps.isEmpty then v8Scan rest nm comps else none

/-- V8 `MakeDay` normalization for a syntactic day (1-31) past the end of
    its month: carry into the following month. -/
def makeDayWrap (y m d : Nat) : Nat × Nat × Nat :=
  if d ≤ daysInMonth y m then (y, m, d)
  else if m == 12 then (y + 1, 1, d - 31)
  else (y, m + 1, d - daysInMonth y m)

/-- V8 `DayComposer::Write`: missing components default to 1; with a named
    month, a non-day first number is the year (else the day, with the second
    number the year); without one, a non-day first number starts year-month-
    day order, else month-day-year; small years shift into 1950-2049; month
    and day must be syntactically valid, and the day is normalized by
    `MakeDay`. -/
def v8Compose (nm : Option Nat) (comps : List Nat) : Option (Nat × Nat × Nat) :=
  match comps with
  | [] => none
  | c0 :: rest =>
    let c1 := rest.getD 0 1
    let c2 := rest.getD 1 1
    let ymd : Nat × Nat × Nat :=
      match nm with
      | some m => if !isDayNum c0 then (c0, m, c1) else (c1, m, c0)
      | none => if !isDayNum c0 then (c0, c1, c2) else (c2, c0, c1)
    let y0 := ymd.1
    let m := ymd.2.1
    let d := ymd.2.2
    let y := if y0 ≤ 49 then y0 + 2000 else if y0 ≤ 99 then y0 + 1900 else y0
    if isMonthNum m && isDayNum d then some (makeDayWrap y m d) else none

/-- The V8 legacy parse of a day-month-year / month-day-year / month-year /
    word-year token string: tokenize, walk, compose. -/
def parseFoundTokens (l : List Char) : Option (Nat × Nat × Nat) :=
  match tokenizeDate l with
  | some toks =>
    match v8Scan toks none [] with
    | some (nm, comps) => v8Compose nm comps
    | none => none
  | none => none

/-- `new Date(found)` as a UTC calendar date: ISO `YYYY-MM-DD` strings first
    (validated, as the spec-mandated ISO path of the JS `Date` parser does),
    then the textual shapes. -/
def parseFoundDate (l : List Char) : Option (Nat × Nat × Nat) :=
  match l with
  | [y1, y2, y3, y4, '-', m1, m2, '-', d1, d2] =>
    if [y1, y2, y3, y4, m1, m2, d1, d2].all isJsDigit then
      let y := natOfDigits [y1, y2, y3, y4]
      let m := natOfDigits [m1, m2]
      let d := natOfDigits [d1, d2]
      if validYmd y m d then some (y, m, d) else none
    else parseFoundTokens l
  | _ => parseFoundTokens l

/-- Decimal digits of a natural number (fuelled helper). -/
def natToCharsAux : Nat → Nat → List Char
  | 0, _ => []
  | Nat.succ fuel, n =>
    if n < 10 then [Char.ofNat (48 + n)]
    else natToCharsAux fuel (n / 10) ++ [Char.ofNat (48 + n % 10)]

/-- JS `String(n)` for a natural number. -/
def natToChars (n : Nat) : List Char := natToCharsAux (n + 1) n

/-- JS `String(n).padStart(2, "0")`. -/
def pad2 (l : List Char) : List Char :=
  if l.length < 2 then List.replicate (2 - l.length) '0' ++ l else l

/-- The template `${y}-${m}-${d}` with padded month and day (lines 256-259). -/
def formatYMD (y m d : Nat) : String :=
  ⟨natToChars y ++ '-' :: (pad2 (natToChars m) ++ '-' :: pad2 (natToChars d))⟩

/- ------------------------------------------------------------------ -/
/- `parseEmployeesString` (api/scrape_byDomain.js lines 232-267). -/

/-- The engine's employee snapshot `{ count, as_of }`. -/
structure EmployeeSnapshot where
  count : Option Int
  as_of : Option String
deriving DecidableEq, Repr

/-- The characters removed by `raw.replace(/[,.\s]/g, "")`. -/
def isStripChar (c : Char) : Bool := c == ',' || c == '.' || isJsSpace c

/-- The count extraction (lines 234-235):
    `raw.replace(/[,.\s]/g, "").match(/\d{3,}/)`, numified. -/
def empCount (s : List Char) : Option Int :=
  (findMatch reDigits3 (s.filter (fun c => !isStripChar c))).map
    (fun m => Int.ofNat (natOfDigits m))

/-- The date-scan chunk (lines 237-238): the first parenthetical content if
    any, else the whole string. -/
def empChunk (s : List Char) : List Char :=
  match parenChunk s with
  | some inner => inner
  | none => s

/-- The date-candidate chain (lines 240-247):
    `pick(iso) || pick(dmy) || pick(mdy) || pick(ym) || pick(yr)`. -/
def empFound (s : List Char) : Option (List Char) :=
  let chunk := empChunk s
  match findMatch reIso chunk with
  | some m => some m
  | none =>
    match findMatch reDmy chunk with
    | some m => some m
    | none =>
      match findMatch reMdy chunk with
      | some m => some m
      | none =>
        match findMatch reYm chunk with
        | some m => some m
        | none => findMatch reYr chunk

/-- The date normalization (lines 249-263): a bare 4-digit year becomes
    `YYYY-01-01`; any other match goes through the modelled `new Date` and is
    formatted as a UTC `Y-M-D`; an invalid date is treated as absent. -/
def empAsOf (s : List Char) : Option String :=
  match empFound s with
  | none => none
  | some f =>
    if f.length == 4 && f.all isJsDigit then some (String.mk f ++ "-01-01")
    else
      match parseFoundDate f with
      | some (y, m, d) => some (formatYMD y m d)
      | none => none

/-- `parseEmployeesString` (lines 232-267): reject falsy input; the snapshot
    combines `empCount` and `empAsOf` and is returned only when at least one
    of them was found. -/
def parseEmployeesString (raw : Option String) : Option EmployeeSnapshot :=
  if !jsTruthy raw then none
  else
    let s := (raw.getD "").data
    if (empCount s).isSome || (empAsOf s).isSome then
      some ⟨empCount s, empAsOf s⟩
    else none

/- ------------------------------------------------------------------ -/
/- The structured employee extraction of `extractFromWikidata`
   (api/scrape_byDomain.js lines 117-131). -/

/-- Drop one leading `+` (`replace(/^\+/, "")`). -/
def stripLeadingPlus (l : List Char) : List Char :=
  match l with
  | '+' :: t => t
  | _ => l

/-- `replace(/T.*$/, "")`: cut at the first `T` (the Wikidata time strings
    involved contain no newline, where the JS regex would behave differently). -/
def takeUntilT (l : List Char) : List Char := l.takeWhile (fun c => !(c == 'T'))

/-- Modelled JS `Number` on the integer strings Wikidata quantity amounts
    use; anything else is NaN, i.e. `none`. -/
def jsNumberInt (l : List Char) : Option Int :=
  match l with
  | '-' :: t =>
    if !t.isEmpty && t.all isJsDigit then some (-(natOfDigits t : Int)) else none
  | '+' :: t =>
    if !t.isEmpty && t.all isJsDigit then some ((natOfDigits t : Int)) else none
  | _ =>
    if !l.isEmpty && l.all isJsDigit then some ((natOfDigits l : Int)) else none

/-- The structured count (lines 121-123): amount with its leading `+`
    stripped, numified when nonempty. -/
def wdEmpCount (amt : Option String) : Option Int :=
  let rawAmt := stripLeadingPlus ((amt.getD "").data)
  if rawAmt.isEmpty then none else jsNumberInt rawAmt

/-- The structured `as_of` (lines 125-126): the qualifier time, leading `+`
    stripped and cut at `T`, normalized to `null` when falsy. -/
def wdEmpAsOf (time : Option String) : Option String :=
  match time with
  | some t =>
    if t == "" then none
    else
      let cut : List Char := takeUntilT (stripLeadingPlus t.data)
      if cut.isEmpty then none else some (String.mk cut)
  | none => none

/-- The snapshot built from one statement (lines 120-130): requires the
    `mainsnak` value object and the `Number.isFinite(count) || as_of` guard. -/
def extractEmpSnap (emp : WdStatement) : Option EmployeeSnapshot :=
  match emp.value with
  | none => none
  | some amt =>
    if (wdEmpCount amt).isSome || (wdEmpAsOf emp.time).isSome then
      some ⟨wdEmpCount amt, wdEmpAsOf emp.time⟩
    else none

/-- Employees from Wikidata `P1128` (lines 117-131): latest statement by
    `P585`, then `extractEmpSnap`. -/
def extractEmployees (p1128 : List WdStatement) : Option EmployeeSnapshot :=
  match latestByP585 p1128 with
  | none => none
  | some emp => extractEmpSnap emp

/- ------------------------------------------------------------------ -/
/- Facts about the employee parser. -/

/-- The count rule as the spec words it: scan for the first position opening
    a run of 3 or more consecutive digits and take that whole run. -/
def firstDigitRun3 : List Char → Option (List Char)
  | [] => none
  | c :: t =>
    if 3 ≤ runLen isJsDigit (c :: t) then some ((c :: t).takeWhile isJsDigit)
    else firstDigitRun3 t

theorem take_takeWhile_len {α : Type} (p : α → Bool) :
    ∀ l : List α, l.take (l.takeWhile p).length = l.takeWhile p := by
  intro l
  induction l with
  | nil => rfl
  | cons c t ih =>
    by_cases h : p c <;> simp [List.takeWhile_cons, h, ih]

theorem tryCounts_const0 (lo k : Nat) (s : List Char) :
    tryCounts (matchAtoms []) lo k s = if k < lo then none else some k := by
  cases k with
  | zero =>
    show (if 0 < lo then none
          else (matchAtoms [] (s.drop 0)).elim none (fun n => some (0 + n))) = _
    by_cases h : 0 < lo
    · rw [if_pos h, if_pos h]
    · rw [if_neg h, if_neg h]
      rfl
  | succ k2 =>
    show (if Nat.succ k2 < lo then none
          else (matchAtoms [] (s.drop (Nat.succ k2))).elim
            (tryCounts (matchAtoms []) lo k2 s) (fun n => some (Nat.succ k2 + n))) = _
    by_cases h : Nat.succ k2 < lo
    · rw [if_pos h, if_pos h]
    · rw [if_neg h, if_neg h]
      rfl

theorem matchAtoms_digits3 (s : List Char) :
    matchAtoms reDigits3 s =
      if 3 ≤ runLen isJsDigit s then some (runLen isJsDigit s) else none := by
  have h0 : matchAtoms reDigits3 s = tryCounts (matchAtoms []) 3 (runLen isJsDigit s) s := rfl
  rw [h0, tryCounts_const0]
  by_cases h : runLen isJsDigit s < 3
  · rw [if_pos h, if_neg (by omega)]
  · rw [if_neg h, if_pos (by omega)]

theorem findMatch_digits3 : ∀ s : List Char, findMatch reDigits3 s = firstDigitRun3 s := by
  intro s
  induction s with
  | nil =>
    show (match matchAtoms reDigits3 [] with
          | some _ => some ([] : List Char)
          | none => none) = none
    rw [matchAtoms_digits3]
    simp [runLen]
  | cons c t ih =>
    show (match matchAtoms reDigits3 (c :: t) with
          | some n => some ((c :: t).take n)
          | none => findMatch reDigits3 t) = _
    rw [matchAtoms_digits3]
    by_cases h : 3 ≤ runLen isJsDigit (c :: t)
    · rw [if_pos h]
      simp only [firstDigitRun3, if_pos h]
      simp only [runLen]
      rw [take_takeWhile_len]
    · rw [if_neg h]
      simp only [firstDigitRun3, if_neg h]
      exact ih

theorem empCount_eq_firstRun (s : List Char) :
    empCount s = (firstDigitRun3 (s.filter (fun c => !isStripChar c))).map
      (fun m => Int.ofNat (natOfDigits m)) := by
  unfold empCount
  rw [findMatch_digits3]

/-- The final guard shared by `parseEmployeesString` and `extractEmployees`. -/
theorem snapshot_guard {c : Option Int} {a : Option String} {e : EmployeeSnapshot}
    (h : (if c.isSome || a.isSome then some (⟨c, a⟩ : EmployeeSnapshot) else none) = some e) :
    e.count ≠ none ∨ e.as_of ≠ none := by
  split at h
  · rename_i hguard
    cases h
    rcases Bool.or_eq_true _ _ |>.mp hguard with h1 | h2
    · exact Or.inl (by simpa using Option.isSome_iff_ne_none.mp h1)
    · exact Or.inr (by simpa using Option.isSome_iff_ne_none.mp h2)
  · exact absurd h (by simp)

theorem parseEmployees_some_truthy (s : String) (hs : jsTruthy (some s) = true) :
    parseEmployeesString (some s) =
      (if (empCount s.data).isSome || (empAsOf s.data).isSome then
        some ⟨empCount s.data, empAsOf s.data⟩
      else none) := by
  unfold parseEmployeesString
  rw [hs]
  rfl

theorem parseEmployees_shape (raw : Option String) :
    parseEmployeesString raw = none ∨
      ∃ s : List Char, parseEmployeesString raw =
        (if (empCount s).isSome || (empAsOf s).isSome then
          some ⟨empCount s, empAsOf s⟩
        else none) := by
  unfold parseEmployeesString
  cases ht : jsTruthy raw
  · exact Or.inl rfl
  · exact Or.inr ⟨(raw.getD "").data, rfl⟩

theorem extractEmpSnap_shape (emp : WdStatement) :
    extractEmpSnap emp = none ∨
      ∃ c a, extractEmpSnap emp =
        (if (c : Option Int).isSome || (a : Option String).isSome then
          some ⟨c, a⟩
        else none) := by
  unfold extractEmpSnap
  cases emp.value with
  | none => exact Or.inl rfl
  | some amt => exact Or.inr ⟨_, _, rfl⟩

theorem extractEmployees_shape (l : List WdStatement) :
    extractEmployees l = none ∨
      ∃ c a, extractEmployees l =
        (if (c : Option Int).isSome || (a : Option String).isSome then
          some ⟨c, a⟩
        else none) := by
  unfold extractEmployees
  cases latestByP585 l with
  | none => exact Or.inl rfl
  | some emp =>
    rcases extractEmpSnap_shape emp with h | ⟨c, a, h⟩
    · exact Or.inl h
    · exact Or.inr ⟨c, a, h⟩

/-- C9: every snapshot either producer emits has a non-null count or a
    non-null date; `{count: null, as_of: null}` is impossible (both functions
    guard on `Number.isFinite(count) || as_of` before building the object). -/
theorem employeeSnapshot_c9_invariant :
    (∀ (raw : Option String) (e : EmployeeSnapshot),
        parseEmployeesString raw = some e → e.count ≠ none ∨ e.as_of ≠ none) ∧
    (∀ (stmts : List WdStatement) (e : EmployeeSnapshot),
        extractEmployees stmts = some e → e.count ≠ none ∨ e.as_of ≠ none) := by
  constructor
  · intro raw e h
    rcases parseEmployees_shape raw with hn | ⟨s, hs⟩
    · rw [hn] at h; cases h
    · rw [hs] at h; exact snapshot_guard h
  · intro stmts e h
    rcases extractEmployees_shape stmts with hn | ⟨c, a, hs⟩
    · rw [hn] at h; cases h
    · rw [hs] at h; exact snapshot_guard h

/-- Witness for `employeeSnapshot_c9_invariant`: both conjuncts applied at
    concrete inputs that produce a snapshot. -/
theorem employeeSnapshot_c9_invariant_witness :
    ((⟨some 500, none⟩ : EmployeeSnapshot).count ≠ none ∨
      (⟨some 500, none⟩ : EmployeeSnapshot).as_of ≠ none) ∧
    ((⟨some 2000, some "2024-06-30"⟩ : EmployeeSnapshot).count ≠ none ∨
      (⟨some 2000, some "2024-06-30"⟩ : EmployeeSnapshot).as_of ≠ none) :=
  ⟨employeeSnapshot_c9_invariant.1 (some "500 staff") ⟨some 500, none⟩ (by decide),
   employeeSnapshot_c9_invariant.2 [stmt2024] ⟨some 2000, some "2024-06-30"⟩ (by decide)⟩

/-- C1 fails as stated: on `"founded 1998"` the parser returns
    `{count: 1998, as_of: "1998-01-01"}` — the four-digit year is itself a
    run of 3-or-more digits and becomes the count — while the claim asserts
    `count: null`.  The `as_of` of the claim is correct: the V8 date parser
    skips the unrecognized word `"founded"` (no number read yet) and reads
    the lone 1998 as a year with month and day defaulting to 1. -/
theorem parseEmployees_c1_counterexample :
    parseEmployeesString (some "founded 1998") =
      some ⟨some 1998, some "1998-01-01"⟩ ∧
    (some (⟨some 1998, some "1998-01-01"⟩ : EmployeeSnapshot) ≠
      some (⟨none, some "1998-01-01"⟩ : EmployeeSnapshot)) := by
  constructor
  · decide
  · decide

/-- C1 amended: the count is the first run of 3-or-more digits of the string
    stripped of commas, periods and whitespace; `"182,502 (June 2024)"`
    gives `{count: 182502, as_of: "2024-06-01"}` and `"employs over 50"`
    gives `null` as claimed, but `"founded 1998"` gives
    `{count: 1998, as_of: "1998-01-01"}`: the as_of of the claim is right,
    while the four-digit year is also captured as the count because it is a
    digit run of length 3 or more. -/
theorem parseEmployees_c1_amended :
    (∀ (s : String) (e : EmployeeSnapshot),
        parseEmployeesString (some s) = some e →
        e.count = (firstDigitRun3 (s.data.filter (fun c => !isStripChar c))).map
          (fun m => Int.ofNat (natOfDigits m))) ∧
    parseEmployeesString (some "182,502 (June 2024)") =
      some ⟨some 182502, some "2024-06-01"⟩ ∧
    parseEmployeesString (some "employs over 50") = none ∧
    parseEmployeesString (some "founded 1998") =
      some ⟨some 1998, some "1998-01-01"⟩ := by
  refine ⟨?_, by decide, by decide, by decide⟩
  intro s e h
  by_cases hs : jsTruthy (some s) = true
  · rw [parseEmployees_some_truthy s hs] at h
    split at h
    · cases h
      exact empCount_eq_firstRun s.data
    · cases h
  · have hf : jsTruthy (some s) = false := by simpa using hs
    have hnone : parseEmployeesString (some s) = none := by
      unfold parseEmployeesString
      rw [hf]
      rfl
    rw [hnone] at h
    cases h

/-- Witness for `parseEmployees_c1_amended`: the count clause applied at the
    concrete string `"About 12,500 employees"`. -/
theorem parseEmployees_c1_amended_witness :
    (⟨some 12500, none⟩ : EmployeeSnapshot).count =
      (firstDigitRun3 ("About 12,500 employees".data.filter
          (fun c => !isStripChar c))).map (fun m => Int.ofNat (natOfDigits m)) :=
  parseEmployees_c1_amended.1 "About 12,500 employees" ⟨some 12500, none⟩ (by decide)

/- ------------------------------------------------------------------ -/
/- Source-precedence merge for `website`, `type` and `employees`
   (domain-based handler, api/scrape_byDomain.js lines 475-481 and 513-567;
   name-based handler, the `api/company.js` variant lines 449-455 and
   488-508). -/

/-- Merged `type` (line 565 resp. 506): `enriched.type || wiki.type || null`;
    when no entity was found `enriched.type` is absent, passed here as
    `none`. -/
def mergeType (structuredType freeType : Option String) : Option String :=
  jsOr structuredType (jsOr freeType none)

/-- Merged employees (lines 513-515 resp. 488-490):
    `enriched.employees || parseEmployeesString(wiki.company_size) || null`
    (object truthiness: any snapshot object is truthy). -/
def mergeEmployees (structured : Option EmployeeSnapshot)
    (companySize : Option String) : Option EmployeeSnapshot :=
  match structured with
  | some e => some e
  | none =>
    match parseEmployeesString companySize with
    | some e => some e
    | none => none

/-- Merged `website` in the domain-based endpoint: line 476 sets
    `enriched.website = wdWebsite || websiteUrl` when an entity was found,
    and line 554 merges `enriched.website || wiki.website || websiteUrl`. -/
def mergedWebsiteByDomain (qidFound : Bool) (wdWebsite wikiWebsite : Option String)
    (websiteUrl : String) : Option String :=
  let enrichedW := if qidFound then jsOr wdWebsite (some websiteUrl) else none
  jsOr enrichedW (jsOr wikiWebsite (some websiteUrl))

/-- Merged `website` in the name-based endpoint: `enriched.website =
    wdWebsite || null` (line 450), merged as `enriched.website ||
    wiki.website || null` (line 495). -/
def mergedWebsiteByName (qidFound : Bool) (wdWebsite wikiWebsite : Option String) :
    Option String :=
  let enrichedW := if qidFound then jsOr wdWebsite none else none
  jsOr enrichedW (jsOr wikiWebsite none)

/-- C4 fails as stated for `website` in the domain-based endpoint: with an
    entity found but carrying no P856 website (structured value absent), a
    free-text website `https://wiki.example/` is ignored and the
    domain-derived URL is returned instead. -/
theorem merge_c4_counterexample :
    mergedWebsiteByDomain true none (some "https://wiki.example/") "https://acme.com/" =
      some "https://acme.com/" ∧
    (some "https://acme.com/" : Option String) ≠ some "https://wiki.example/" := by
  constructor
  · decide
  · decide

/-- C4 amended: for `type` and `employees` the merged record takes the
    structured value when present and non-empty, else the free-text value;
    for `website` this holds in the name-based endpoint, but in the
    domain-based endpoint, once an entity is found, the website is the
    structured value or else the domain-derived URL — the free-text website
    is consulted only when no entity was found. -/
theorem merge_c4_amended :
    (∀ st ft : Option String, jsTruthy st = true → mergeType st ft = st) ∧
    (∀ st ft : Option String, jsTruthy st = false → mergeType st ft = jsOr ft none) ∧
    (∀ (e : EmployeeSnapshot) (cs : Option String),
        mergeEmployees (some e) cs = some e) ∧
    (∀ cs : Option String, mergeEmployees none cs = parseEmployeesString cs) ∧
    (∀ (q : Bool) (wd wiki : Option String),
        mergedWebsiteByName q wd wiki =
          if q && jsTruthy wd then wd else jsOr wiki none) ∧
    (∀ (wd wiki : Option String) (url : String), url ≠ "" →
        mergedWebsiteByDomain true wd wiki url = jsOr wd (some url)) ∧
    (∀ (wd wiki : Option String) (url : String),
        mergedWebsiteByDomain false wd wiki url = jsOr wiki (some url)) := by
  refine ⟨?_, ?_, ?_, ?_, ?_, ?_, ?_⟩
  · intro st ft h
    unfold mergeType jsOr
    rw [h]
    rfl
  · intro st ft h
    unfold mergeType jsOr
    rw [h]
    rfl
  · intro e cs
    rfl
  · intro cs
    unfold mergeEmployees
    cases parseEmployeesString cs <;> rfl
  · intro q wd wiki
    cases q with
    | false =>
      show jsOr none (jsOr wiki none) = _
      rw [jsOr_of_falsy jsTruthy_none]
      rfl
    | true =>
      cases hwd : jsTruthy wd with
      | true =>
        show jsOr (jsOr wd none) (jsOr wiki none) = _
        simp [jsOr_of_truthy hwd, hwd]
      | false =>
        show jsOr (jsOr wd none) (jsOr wiki none) = _
        simp [jsOr_of_falsy hwd, jsOr_of_falsy jsTruthy_none, hwd]
  · intro wd wiki url hurl
    have hu : jsTruthy (some url) = true := by
      unfold jsTruthy
      simpa using hurl
    show jsOr (jsOr wd (some url)) (jsOr wiki (some url)) = jsOr wd (some url)
    cases hwd : jsTruthy wd with
    | true => simp [jsOr_of_truthy hwd]
    | false => simp [jsOr_of_falsy hwd, jsOr_of_truthy hu]
  · intro wd wiki url
    rfl

/-- Witness for `merge_c4_amended`: the structured-wins clause for `type` at
    a concrete pair. -/
theorem merge_c4_amended_witness :
    mergeType (some "public company") (some "Subsidiary") = some "public company" :=
  merge_c4_amended.1 (some "public company") (some "Subsidiary") (by decide)

/- ------------------------------------------------------------------ -/
/- Structured headquarters: `buildHeadquarters`
   (api/scrape_byDomain.js lines 164-229).  The two `getWikidataEntities`
   fetches are modelled by lookups into a `store` function (the knowledge
   graph); `entities` is the caller-supplied entity map. -/

/-- The projections of a Wikidata place entity that `buildHeadquarters`
    reads: display label, `P17` (country), `P131` (located in), `P31`
    (instance of) ids, and the `P625` coordinate value when it carries
    numeric latitude/longitude (JS numbers modelled as rationals). -/
structure WdEntityH where
  label : Option String
  p17 : Option String
  p131 : Option String
  p31 : List String
  coords : Option (Rat × Rat)
deriving DecidableEq

/-- The returned headquarters record. -/
structure HQRecord where
  raw : Option String
  place : Option String
  city : Option String
  region : Option String
  country : Option String
  coordinates : Option (Rat × Rat)
deriving DecidableEq

/-- JS `String.prototype.split` on one separator character. -/
def splitOnChar (sep : Char) : List Char → List (List Char)
  | [] => [[]]
  | c :: t =>
    let r := splitOnChar sep t
    if c == sep then [] :: r
    else
      match r with
      | h :: rest => (c :: h) :: rest
      | [] => [[c]]

/-- Line 215: `(label || "").split(",").map(s => s.trim()).filter(Boolean)`. -/
def hqSegments (label : Option String) : List String :=
  ((splitOnChar ',' (((jsOr label (some "")).getD "").data)).map
      (fun seg => String.mk (trimChars seg))).filter (fun s => !(s == ""))

/-- The comma-split fallback (lines 214-219): runs only when city or country
    is unresolved; fills only falsy fields: city from the first segment when
    at least two exist, region from the second when at least three exist,
    country from the last when any exists. -/
def hqFallbackStep (label city region country : Option String) :
    Option String × Option String × Option String :=
  if !jsTruthy city || !jsTruthy country then
    let parsed := hqSegments label
    let city2 :=
      if !jsTruthy city && decide (2 ≤ parsed.length) then parsed.head? else city
    let region2 :=
      if !jsTruthy region && decide (3 ≤ parsed.length) then parsed[1]? else region
    let country2 :=
      if !jsTruthy country && decide (1 ≤ parsed.length) then parsed.getLast?
      else country
    (city2, region2, country2)
  else (city, region, country)

/-- `Q515` / `Q486972` markers and the `looksLike` test (lines 191-194). -/
def looksLikeQ (e : WdEntityH) (qid : String) : Bool := e.p31.contains qid

def Q_CITY : String := "Q515"

def Q_HUMAN_SETTLEMENT : String := "Q486972"

/-- `buildHeadquarters` (lines 164-229): null without a truthy id or a known
    entity; read country (`P17`) and the one-hop parent (`P131`); fetch those,
    then the parent's own parent (second hop) when needed; classify each hop
    as city when its `P31` contains the city or human-settlement marker, else
    as a region candidate; fall back to the comma-split of the display label
    for still-unresolved city/country; always set `raw`/`place` to the label. -/
def buildHeadquarters (store entities : String → Option WdEntityH)
    (headquartersId : Option String) : Option HQRecord :=
  match headquartersId with
  | none => none
  | some hid =>
    if hid == "" then none
    else
      match entities hid with
      | none => none
      | some hq =>
        let label := jsOr hq.label none
        let countryId := hq.p17
        let admin1Id := hq.p131
        let toFetch := jsUnique ([admin1Id, countryId].filterMap id)
        let more1 : String → Option WdEntityH :=
          fun q => if q ∈ toFetch then store q else none
        let admin2Id : Option String :=
          if jsTruthy admin1Id then
            match more1 (admin1Id.getD "") with
            | some e1 => jsOr e1.p131 none
            | none => none
          else none
        let a2 := admin2Id.getD ""
        let more : String → Option WdEntityH :=
          fun q =>
            if jsTruthy admin2Id && !(more1 a2).isSome && q == a2 then store q
            else more1 q
        let country : Option String :=
          if jsTruthy countryId then
            let cid := countryId.getD ""
            jsOr (match entities cid with | some e => e.label | none => none)
              (jsOr (match more cid with | some e => e.label | none => none) none)
          else none
        let admin1 : Option WdEntityH :=
          if jsTruthy admin1Id then
            let a1 := admin1Id.getD ""
            match entities a1 with
            | some e => some e
            | none => more a1
          else none
        let admin2 : Option WdEntityH :=
          if jsTruthy admin2Id then
            match entities a2 with
            | some e => some e
            | none => more a2
          else none
        let cr1 : Option String × Option String :=
          match admin1 with
          | none => (none, none)
          | some e1 =>
            if looksLikeQ e1 Q_CITY || looksLikeQ e1 Q_HUMAN_SETTLEMENT then
              (e1.label, none)
            else (none, e1.label)
        let cr2 : Option String × Option String :=
          if !jsTruthy cr1.1 then
            match admin2 with
            | none => cr1
            | some e2 =>
              if looksLikeQ e2 Q_CITY || looksLikeQ e2 Q_HUMAN_SETTLEMENT then
                (e2.label, cr1.2)
              else if !jsTruthy cr1.2 then (cr1.1, e2.label)
              else cr1
          else cr1
        let coordinates := hq.coords
        let final := hqFallbackStep label cr2.1 cr2.2 country
        some
          { raw := label
            place := label
            city := jsOr final.1 none
            region := jsOr final.2.1 none
            country := jsOr final.2.2 none
            coordinates := coordinates }

/-- A place entity with a display label and no graph claims. -/
def labelOnlyEntity (l : String) : WdEntityH := ⟨some l, none, none, [], none⟩

/-- C2 fails as stated on a single-segment label: with no graph data and raw
    label `"Paris"`, the fallback leaves `city` null (the first segment is
    assigned to city only when at least two segments exist) while assigning
    the segment to `country`; the claim says the first comma segment is
    assigned to city. -/
theorem buildHeadquarters_c2_counterexample :
    buildHeadquarters (fun _ => none)
      (fun q => if q == "Q90" then some (labelOnlyEntity "Paris") else none)
      (some "Q90") =
      some ⟨some "Paris", some "Paris", none, none, some "Paris", none⟩ ∧
    hqSegments (some "Paris") = ["Paris"] ∧
    (none : Option String) ≠ some "Paris" := by
  refine ⟨by decide, by decide, by decide⟩

/-- C2 amended: the fallback runs only when city or country is unresolved and
    never overwrites a truthy city, region or country; when it runs it assigns
    the first comma segment to city only when at least two segments exist, the
    second segment to region when at least three exist, and the last segment
    to country when any segment exists; on the raw label
    `"Mountain View, California, United States"` with no graph data it
    resolves city/region/country as the claim states. -/
theorem buildHeadquarters_c2_amended :
    (∀ label c r k, jsTruthy c = true → (hqFallbackStep label c r k).1 = c) ∧
    (∀ label c r k, jsTruthy r = true → (hqFallbackStep label c r k).2.1 = r) ∧
    (∀ label c r k, jsTruthy k = true → (hqFallbackStep label c r k).2.2 = k) ∧
    (∀ label c r k, jsTruthy c = false → 2 ≤ (hqSegments label).length →
        (hqFallbackStep label c r k).1 = (hqSegments label).head?) ∧
    (∀ label c r k, jsTruthy r = false →
        (!jsTruthy c || !jsTruthy k) = true → 3 ≤ (hqSegments label).length →
        (hqFallbackStep label c r k).2.1 = (hqSegments label)[1]?) ∧
    (∀ label c r k, jsTruthy k = false → 1 ≤ (hqSegments label).length →
        (hqFallbackStep label c r k).2.2 = (hqSegments label).getLast?) ∧
    buildHeadquarters (fun _ => none)
      (fun q => if q == "Q1" then
          some (labelOnlyEntity "Mountain View, California, United States")
        else none)
      (some "Q1") =
      some ⟨some "Mountain View, California, United States",
            some "Mountain View, California, United States",
            some "Mountain View", some "California", some "United States",
            none⟩ := by
  refine ⟨?_, ?_, ?_, ?_, ?_, ?_, by decide⟩
  · intro label c r k hc
    unfold hqFallbackStep
    by_cases hk : jsTruthy k
    · rw [if_neg (by simp [hc, hk])]
    · rw [if_pos (by simp [hk])]
      simp [hc]
  · intro label c r k hr
    unfold hqFallbackStep
    split
    · simp [hr]
    · rfl
  · intro label c r k hk
    unfold hqFallbackStep
    split
    · simp [hk]
    · rfl
  · intro label c r k hc hlen
    unfold hqFallbackStep
    rw [if_pos (by simp [hc])]
    simp [hc, hlen]
  · intro label c r k hr hguard hlen
    unfold hqFallbackStep
    rw [if_pos hguard]
    simp [hr, hlen]
  · intro label c r k hk hlen
    unfold hqFallbackStep
    rw [if_pos (by simp [hk])]
    simp [hk, hlen]

/-- Witness for `buildHeadquarters_c2_amended`: the city-assignment clause at
    a concrete two-segment label with nothing graph-resolved. -/
theorem buildHeadquarters_c2_amended_witness :
    (hqFallbackStep (some "Lyon, France") none none none).1 =
      (hqSegments (some "Lyon, France")).head? :=
  buildHeadquarters_c2_amended.2.2.2.1 (some "Lyon, France") none none none
    (by decide) (by decide)

end VercelScrape
